import Mathlib

/-!
Verification of `src/neural/network_legacy.cc` (LegacyWeights::ConvBlock):
construction from a serialized weight container, the non-destructive
statistic accessors, and batch-norm folding (`FoldBN`).

Embedding conventions: float32 vectors become `List ℚ` (exact arithmetic);
the single transcendental operation `std::sqrt` is abstracted as a
parameter `s : ℚ → ℚ`, so every general theorem holds for an arbitrary
square-root stand-in, and concrete examples instantiate `s` with the
explicit `sqrtW` below. In-place loops whose iteration `i` touches
only index `i` are translated write-for-write with `List.ofFn`;
out-of-range C++ reads (undefined behaviour) are totalized with
`List.getD`, and the separate predicate `FoldBNSafe` records the exact
in-bounds obligations of the original code.
-/

namespace NetworkLegacy

/-- Regularization constant `kEpsilon = 1e-5f` from the anonymous namespace of
`network_legacy.cc` (line 27), embedded exactly as the rational `1/100000`. -/
def kEpsilon : ℚ := 1 / 100000

/-- `LegacyWeights::ConvBlock`: the six float vectors declared in
`network_legacy.h` and filled by the constructor at `network_legacy.cc:69-88`. -/
structure ConvBlock where
  weights : List ℚ
  biases : List ℚ
  bn_gammas : List ℚ
  bn_betas : List ℚ
  bn_means : List ℚ
  bn_stddivs : List ℚ
deriving DecidableEq

/-- `InvertVector` (`network_legacy.cc:29-31`):
`for (auto& x : *vec) x = 1.0f / std::sqrt(x + kEpsilon);`. -/
def InvertVector (s : ℚ → ℚ) (vec : List ℚ) : List ℚ :=
  vec.map fun x => 1 / s (x + kEpsilon)

/-- `OffsetVector` (`network_legacy.cc:33-36`): `std::transform` over the range
of `means` writing `means[i] - biases[i]`; the read `biases[i]` is totalized
with `getD` (it is out of bounds in the C++ when `biases` is shorter). -/
def OffsetVector (means biases : List ℚ) : List ℚ :=
  List.ofFn fun i : Fin means.length => means.get i - biases.getD i 0

/-- `LegacyWeights::ConvBlock::ConvBlock` (`network_legacy.cc:69-88`). The six
serialized fields arrive already flattened by `LayerAdapter` (external). If
`bn_betas` is empty, the loop appends `0.0f` to `bn_betas` and `1.0f` to
`bn_gammas` once per entry of `bn_means`; if `biases` is empty, the second
loop appends `0.0f` to `biases` once per entry of `bn_means`. There is no
size validation of any kind in the constructor. -/
def ConvBlock.build (w bi g be m sd : List ℚ) : ConvBlock :=
  let be1 := if be.length = 0 then be ++ List.replicate m.length 0 else be
  let g1 := if be.length = 0 then g ++ List.replicate m.length 1 else g
  let bi1 := if bi.length = 0 then bi ++ List.replicate m.length 0 else bi
  ⟨w, bi1, g1, be1, m, sd⟩

/-- `GetInvertedStddev` (`network_legacy.cc:96-100`): copies `bn_stddivs`,
inverts the copy, returns it. The method is `const`; the pair's second
component is the state of the block after the call. -/
def ConvBlock.GetInvertedStddev (s : ℚ → ℚ) (b : ConvBlock) : List ℚ × ConvBlock :=
  (InvertVector s b.bn_stddivs, b)

/-- `GetOffsetMeans` (`network_legacy.cc:102-106`): copies `bn_means`, offsets
the copy by `biases`, returns it. The method is `const`; the pair's second
component is the state of the block after the call. -/
def ConvBlock.GetOffsetMeans (b : ConvBlock) : List ℚ × ConvBlock :=
  (OffsetVector b.bn_means b.biases, b)

/-- Phase 1 of `FoldBN` (`network_legacy.cc:115-120`), effect on `bn_gammas`:
`bn_gammas[i] *= 1.0f / std::sqrt(bn_stddivs[i] + epsilon)` for every
`i < bn_stddivs.size()`. -/
def foldGammas (s : ℚ → ℚ) (gammas stddivs : List ℚ) : List ℚ :=
  List.ofFn fun i : Fin gammas.length =>
    if (i : ℕ) < stddivs.length then gammas.get i * (1 / s (stddivs.getD i 0 + kEpsilon))
    else gammas.get i

/-- Phase 1 of `FoldBN` (`network_legacy.cc:118`), effect on `bn_means`:
`bn_means[i] -= biases[i]` for every `i < bn_stddivs.size()`. -/
def phase1Means (means biases stddivs : List ℚ) : List ℚ :=
  List.ofFn fun i : Fin means.length =>
    if (i : ℕ) < stddivs.length then means.get i - biases.getD i 0 else means.get i

/-- Write `0` at every index `< k`, keep the rest: the in-place zeroing loops
of `FoldBN` (`biases[i] = 0.0f` in phase 1 with `k = bn_stddivs.size()`;
`bn_means[o] = 0.0f` and `bn_betas[o] = 0.0f` in phase 2 with `k = outputs`). -/
def zeroUpTo (v : List ℚ) (k : ℕ) : List ℚ :=
  List.ofFn fun i : Fin v.length => if (i : ℕ) < k then 0 else v.get i

/-- Phase 2 of `FoldBN` (`network_legacy.cc:126-132`), effect on `weights`:
index `o*inputs*spatialSize + c*spatialSize + i` (for `o < outputs`,
`c < inputs`, `i < spatialSize`) is multiplied by `bn_gammas[o]`. These
indices are exactly the `j < outputs*inputs*spatialSize`, and the output
channel of `j` is `j / (inputs*spatialSize)`. -/
def scaleWeights (w g1 : List ℚ) (outputs inputsN spatialSize : ℕ) : List ℚ :=
  List.ofFn fun j : Fin w.length =>
    if (j : ℕ) < outputs * inputsN * spatialSize then
      w.get j * g1.getD ((j : ℕ) / (inputsN * spatialSize)) 0
    else w.get j

/-- Phase 2 of `FoldBN` (`network_legacy.cc:134`):
`biases[o] = -bn_gammas[o] * bn_means[o] + bn_betas[o]` for every
`o < outputs = biases.size()`, reading the phase-1 gammas and means and the
as-yet untouched betas. -/
def foldBiases (biases g1 means1 betas : List ℚ) : List ℚ :=
  List.ofFn fun o : Fin biases.length =>
    -(g1.getD o 0) * means1.getD o 0 + betas.getD o 0

/-- `LegacyWeights::ConvBlock::FoldBN(size_t filterSize)`
(`network_legacy.cc:111-138`) as a function on the block state. Every
iteration of each in-place loop reads and writes only its own index of each
vector, so the imperative body is translated write-for-write: phase 1 folds
the inverted stddev into the gammas, sets the stddivs to `1.0`, subtracts the
biases from the means and zeroes the biases; then `inputs` is computed by the
truncating `size_t` division `weights.size() / (outputs * spatialSize)`
(no divisibility guard); phase 2 scales the weights of output channel `o` by
the folded `bn_gammas[o]`, rewrites each bias to
`-bn_gammas[o] * bn_means[o] + bn_betas[o]`, and zeroes the means and betas. -/
def ConvBlock.FoldBN (s : ℚ → ℚ) (filterSize : ℕ) (b : ConvBlock) : ConvBlock :=
  let g1 := foldGammas s b.bn_gammas b.bn_stddivs
  let sd1 := b.bn_stddivs.map fun _ => (1 : ℚ)
  let m1 := phase1Means b.bn_means b.biases b.bn_stddivs
  let bi1 := zeroUpTo b.biases b.bn_stddivs.length
  let spatialSize := filterSize * filterSize
  let outputs := bi1.length
  let inputsN := b.weights.length / (outputs * spatialSize)
  ⟨scaleWeights b.weights g1 outputs inputsN spatialSize,
   foldBiases bi1 g1 m1 b.bn_betas,
   g1,
   zeroUpTo b.bn_betas outputs,
   zeroUpTo m1 outputs,
   sd1⟩

/-- The memory-safety obligations of `FoldBN`'s body, read off the source line
by line: phase 1 indexes `bn_gammas`, `bn_means` and `biases` at every
`i < bn_stddivs.size()`; the `size_t` division computing `inputs` must have a
nonzero divisor `outputs * spatialSize`; phase 2 indexes `weights` at
`o*inputs*spatialSize + c*spatialSize + i` for every `o < outputs`,
`c < inputs`, `i < spatialSize`, and indexes `bn_gammas`, `bn_means`,
`bn_betas` (and `biases`, its own vector) at every `o < outputs`. -/
def FoldBNSafe (filterSize : ℕ) (b : ConvBlock) : Prop :=
  (∀ i < b.bn_stddivs.length,
     i < b.bn_gammas.length ∧ i < b.bn_means.length ∧ i < b.biases.length) ∧
  b.biases.length * (filterSize * filterSize) ≠ 0 ∧
  (∀ o < b.biases.length,
    ∀ c < b.weights.length / (b.biases.length * (filterSize * filterSize)),
    ∀ i < filterSize * filterSize,
      o * (b.weights.length / (b.biases.length * (filterSize * filterSize))) *
          (filterSize * filterSize) + c * (filterSize * filterSize) + i
        < b.weights.length) ∧
  (∀ o < b.biases.length,
     o < b.bn_gammas.length ∧ o < b.bn_means.length ∧ o < b.bn_betas.length)

/-- Stand-in for `std::sqrt`, used only to instantiate the square-root
parameter `s` on the concrete example blocks below. It is the exact square
root at the one point `9` those examples evaluate a genuine square root at
(their stddev is chosen so `stddev + kEpsilon = 9`), and `1` elsewhere —
in particular at `1 + kEpsilon`, matching the float rounding of
`sqrt(1 + 1e-5)` to `1`. The general theorems hold for every `s`. -/
def sqrtW (q : ℚ) : ℚ := if q = 9 then 3 else 1

/-- Modelled from the spec: the downstream convolution consumer is not part of
`network_legacy.cc`. Per the spec's output boundary, the backend indexes
`weights` as `[output_channel][input_channel][spatial_position]`, so output
channel `o` of the convolution over `inputsN` input channels and
`spatialSize` spatial positions on input `x` (indexed by input channel and
spatial position), biased by `biases[o]`, is
`(Σ c, Σ p, weights[o*inputsN*spatialSize + c*spatialSize + p] * x c p) + biases[o]`. -/
def convOut (w biases : List ℚ) (inputsN spatialSize : ℕ) (x : ℕ → ℕ → ℚ) (o : ℕ) : ℚ :=
  (∑ c ∈ Finset.range inputsN, ∑ p ∈ Finset.range spatialSize,
      w.getD (o * inputsN * spatialSize + c * spatialSize + p) 0 * x c p) +
    biases.getD o 0

/-- Modelled from the spec (glossary): inference-time batch normalization is
the per-channel affine map `(y - mean) * (1 / sqrt(stddev + kEpsilon)) * gamma
+ beta`, with the same square-root stand-in `s` as the folding code. -/
def batchNorm (s : ℚ → ℚ) (gamma beta mean stddiv y : ℚ) : ℚ :=
  (y - mean) * (1 / s (stddiv + kEpsilon)) * gamma + beta

/-- Worked example block of the spec: one output channel, one input channel,
1x1 kernel, with `stddev` chosen so that `stddev + kEpsilon = 9`. -/
def cbSample : ConvBlock := ⟨[2], [1], [3], [1 / 2], [4], [899999 / 100000]⟩

/-- Divisibility example block of the spec: 10 weights, 3 output channels
(so `filterSize = 2` gives `spatial = 4` and `3 * 4` does not divide 10). -/
def cbTen : ConvBlock :=
  ⟨[1, 1, 1, 1, 1, 1, 1, 1, 1, 1], [1, 2, 3], [1, 1, 1], [0, 0, 0], [0, 0, 0], [3, 3, 3]⟩

/-- Block used to exhibit that re-folding is not a no-op: its folded gamma is
`2/3`, so a second fold rescales the weights by `2/3` again. -/
def cbRefold : ConvBlock := ⟨[1], [0], [2], [0], [0], [899999 / 100000]⟩

/-- Constant-one sample input for the convolution. -/
def oneInput : ℕ → ℕ → ℚ := fun _ _ => 1

theorem foldGammas_length (s : ℚ → ℚ) (g sd : List ℚ) :
    (foldGammas s g sd).length = g.length := by
  simp [foldGammas]

theorem phase1Means_length (m bi sd : List ℚ) :
    (phase1Means m bi sd).length = m.length := by
  simp [phase1Means]

theorem zeroUpTo_length (v : List ℚ) (k : ℕ) : (zeroUpTo v k).length = v.length := by
  simp [zeroUpTo]

theorem scaleWeights_length (w g1 : List ℚ) (outputs inputsN spatialSize : ℕ) :
    (scaleWeights w g1 outputs inputsN spatialSize).length = w.length := by
  simp [scaleWeights]

theorem foldBiases_length (bi g1 m1 be : List ℚ) :
    (foldBiases bi g1 m1 be).length = bi.length := by
  simp [foldBiases]

theorem foldGammas_getD (s : ℚ → ℚ) (g sd : List ℚ) (i : ℕ)
    (h1 : i < g.length) (h2 : i < sd.length) :
    (foldGammas s g sd).getD i 0 = g.getD i 0 * (1 / s (sd.getD i 0 + kEpsilon)) := by
  have hl : i < (foldGammas s g sd).length := by rw [foldGammas_length]; exact h1
  rw [List.getD_eq_getElem _ _ hl, List.getD_eq_getElem _ _ h1]
  simp [foldGammas, h2]

theorem phase1Means_getD (m bi sd : List ℚ) (i : ℕ)
    (h1 : i < m.length) (h2 : i < sd.length) :
    (phase1Means m bi sd).getD i 0 = m.getD i 0 - bi.getD i 0 := by
  have hl : i < (phase1Means m bi sd).length := by rw [phase1Means_length]; exact h1
  rw [List.getD_eq_getElem _ _ hl, List.getD_eq_getElem _ _ h1]
  simp [phase1Means, h2]

theorem scaleWeights_getD (w g1 : List ℚ) (outputs inputsN spatialSize : ℕ) (j : ℕ)
    (h1 : j < w.length) (h2 : j < outputs * inputsN * spatialSize) :
    (scaleWeights w g1 outputs inputsN spatialSize).getD j 0 =
      w.getD j 0 * g1.getD (j / (inputsN * spatialSize)) 0 := by
  have hl : j < (scaleWeights w g1 outputs inputsN spatialSize).length := by
    rw [scaleWeights_length]; exact h1
  rw [List.getD_eq_getElem _ _ hl, List.getD_eq_getElem _ _ h1]
  simp [scaleWeights, h2]

theorem scaleWeights_getD_untouched (w g1 : List ℚ) (outputs inputsN spatialSize : ℕ)
    (j : ℕ) (h1 : j < w.length) (h2 : outputs * inputsN * spatialSize ≤ j) :
    (scaleWeights w g1 outputs inputsN spatialSize).getD j 0 = w.getD j 0 := by
  have hl : j < (scaleWeights w g1 outputs inputsN spatialSize).length := by
    rw [scaleWeights_length]; exact h1
  rw [List.getD_eq_getElem _ _ hl, List.getD_eq_getElem _ _ h1]
  simp [scaleWeights, Nat.not_lt.mpr h2]

theorem foldBiases_getD (bi g1 m1 be : List ℚ) (o : ℕ) (h : o < bi.length) :
    (foldBiases bi g1 m1 be).getD o 0 =
      -(g1.getD o 0) * m1.getD o 0 + be.getD o 0 := by
  have hl : o < (foldBiases bi g1 m1 be).length := by rw [foldBiases_length]; exact h
  rw [List.getD_eq_getElem _ _ hl]
  simp [foldBiases]

theorem zeroUpTo_all (v : List ℚ) (k : ℕ) (h : v.length ≤ k) :
    zeroUpTo v k = List.replicate v.length 0 := by
  apply List.eq_replicate_iff.2
  refine ⟨zeroUpTo_length v k, ?_⟩
  intro q hq
  rw [zeroUpTo] at hq
  rcases Set.mem_range.1 ((List.mem_ofFn _ _).1 hq) with ⟨i, hi⟩
  rw [if_pos (lt_of_lt_of_le i.isLt h)] at hi
  exact hi.symm

theorem FoldBN_weights (s : ℚ → ℚ) (fs : ℕ) (b : ConvBlock) :
    (b.FoldBN s fs).weights =
      scaleWeights b.weights (foldGammas s b.bn_gammas b.bn_stddivs) b.biases.length
        (b.weights.length / (b.biases.length * (fs * fs))) (fs * fs) := by
  simp [ConvBlock.FoldBN, zeroUpTo_length]

theorem FoldBN_biases (s : ℚ → ℚ) (fs : ℕ) (b : ConvBlock) :
    (b.FoldBN s fs).biases =
      foldBiases (zeroUpTo b.biases b.bn_stddivs.length)
        (foldGammas s b.bn_gammas b.bn_stddivs)
        (phase1Means b.bn_means b.biases b.bn_stddivs) b.bn_betas := rfl

theorem FoldBN_bn_gammas (s : ℚ → ℚ) (fs : ℕ) (b : ConvBlock) :
    (b.FoldBN s fs).bn_gammas = foldGammas s b.bn_gammas b.bn_stddivs := rfl

theorem FoldBN_bn_betas (s : ℚ → ℚ) (fs : ℕ) (b : ConvBlock) :
    (b.FoldBN s fs).bn_betas = zeroUpTo b.bn_betas b.biases.length := by
  simp [ConvBlock.FoldBN, zeroUpTo_length]

theorem FoldBN_bn_means (s : ℚ → ℚ) (fs : ℕ) (b : ConvBlock) :
    (b.FoldBN s fs).bn_means =
      zeroUpTo (phase1Means b.bn_means b.biases b.bn_stddivs) b.biases.length := by
  simp [ConvBlock.FoldBN, zeroUpTo_length]

theorem FoldBN_bn_stddivs (s : ℚ → ℚ) (fs : ℕ) (b : ConvBlock) :
    (b.FoldBN s fs).bn_stddivs = b.bn_stddivs.map fun _ => (1 : ℚ) := rfl

theorem map_one_eq_replicate (v : List ℚ) :
    (v.map fun _ => (1 : ℚ)) = List.replicate v.length 1 := by
  apply List.eq_replicate_iff.2
  refine ⟨by simp, ?_⟩
  intro q hq
  rcases List.mem_map.1 hq with ⟨a, _, ha⟩
  exact ha.symm

theorem idx_div (o c p inputsN spatialSize : ℕ)
    (hc : c < inputsN) (hp : p < spatialSize) :
    (o * inputsN * spatialSize + c * spatialSize + p) / (inputsN * spatialSize) = o := by
  have hI : 0 < inputsN := by omega
  have hS : 0 < spatialSize := by omega
  have hIS : 0 < inputsN * spatialSize := Nat.mul_pos hI hS
  have hlt : c * spatialSize + p < inputsN * spatialSize := by
    have h1 : c * spatialSize + p < (c + 1) * spatialSize := by
      have : (c + 1) * spatialSize = c * spatialSize + spatialSize := by ring
      omega
    have h2 : (c + 1) * spatialSize ≤ inputsN * spatialSize :=
      Nat.mul_le_mul_right spatialSize hc
    omega
  have hre : o * inputsN * spatialSize + c * spatialSize + p =
      (c * spatialSize + p) + (inputsN * spatialSize) * o := by ring
  rw [hre, Nat.add_mul_div_left _ _ hIS, Nat.div_eq_of_lt hlt]
  omega

theorem idx_lt (o c p n inputsN spatialSize : ℕ)
    (ho : o < n) (hc : c < inputsN) (hp : p < spatialSize) :
    o * inputsN * spatialSize + c * spatialSize + p < n * inputsN * spatialSize := by
  have hlt : c * spatialSize + p < inputsN * spatialSize := by
    have h1 : (c + 1) * spatialSize = c * spatialSize + spatialSize := by ring
    have h2 : (c + 1) * spatialSize ≤ inputsN * spatialSize :=
      Nat.mul_le_mul_right spatialSize hc
    omega
  have h3 : (o + 1) * (inputsN * spatialSize) ≤ n * (inputsN * spatialSize) :=
    Nat.mul_le_mul_right _ ho
  have h4 : (o + 1) * (inputsN * spatialSize) =
      o * inputsN * spatialSize + inputsN * spatialSize := by ring
  have h5 : n * (inputsN * spatialSize) = n * inputsN * spatialSize := by ring
  omega

theorem build_biases_length (w bi g be m sd : List ℚ) :
    (ConvBlock.build w bi g be m sd).biases.length =
      if bi.length = 0 then m.length else bi.length := by
  by_cases h : bi.length = 0 <;> simp [ConvBlock.build, h]

theorem build_gammas_length (w bi g be m sd : List ℚ) :
    (ConvBlock.build w bi g be m sd).bn_gammas.length =
      if be.length = 0 then g.length + m.length else g.length := by
  by_cases h : be.length = 0 <;> simp [ConvBlock.build, h]

theorem build_betas_length (w bi g be m sd : List ℚ) :
    (ConvBlock.build w bi g be m sd).bn_betas.length =
      if be.length = 0 then m.length else be.length := by
  by_cases h : be.length = 0 <;> simp [ConvBlock.build, h]

/-- Claim C3 (corrected): the constructor has no failure path at all — no
FormatError exists in `network_legacy.cc` — and it never compares
`bn_stddivs` against `bn_means`: `weights`, `bn_means` and `bn_stddivs` are
carried into the block unchanged, mismatched or not, and are not coerced. -/
theorem build_total_passthrough (w bi g be m sd : List ℚ) :
    (ConvBlock.build w bi g be m sd).weights = w ∧
    (ConvBlock.build w bi g be m sd).bn_means = m ∧
    (ConvBlock.build w bi g be m sd).bn_stddivs = sd :=
  ⟨rfl, rfl, rfl⟩

/-- Claim C3 fails on the code: with `bn_stddivs = [1]` non-empty and
`bn_means = [2, 3]` of a different length, construction succeeds and returns
the complete aggregate with the length mismatch intact — nothing fails and
nothing is coerced. -/
theorem build_accepts_mismatched_stddevs :
    (ConvBlock.build [] [] [] [] [2, 3] [1]).bn_stddivs = [1] ∧
    (ConvBlock.build [] [] [] [] [2, 3] [1]).bn_means = [2, 3] ∧
    (ConvBlock.build [] [] [] [] [2, 3] [1]).bn_stddivs.length ≠
      (ConvBlock.build [] [] [] [] [2, 3] [1]).bn_means.length := by
  decide

/-- Claim C4 (corrected): when `bn_betas` is empty on input and — as the
counterexample forces — `bn_gammas` is empty as well (the legacy format has
both absent together), construction yields `bn_betas = replicate n 0` and
`bn_gammas = replicate n 1` with `n = bn_means.length`; and the substitution
happens only when `bn_betas` was empty: when it is present, `bn_betas` and
`bn_gammas` are both left unchanged. -/
theorem build_legacy_beta_gamma_defaults (w bi g be m sd : List ℚ) :
    (be = [] → g = [] →
      (ConvBlock.build w bi g be m sd).bn_betas = List.replicate m.length 0 ∧
      (ConvBlock.build w bi g be m sd).bn_gammas = List.replicate m.length 1) ∧
    (be ≠ [] →
      (ConvBlock.build w bi g be m sd).bn_betas = be ∧
      (ConvBlock.build w bi g be m sd).bn_gammas = g) := by
  constructor
  · rintro rfl rfl
    simp [ConvBlock.build]
  · intro hbe
    have h : ¬ be.length = 0 := by simpa [List.length_eq_zero] using hbe
    simp [ConvBlock.build, h]

/-- Claim C4 fails as stated: with `bn_betas` empty but `bn_gammas = [5]`
already present, the constructor appends the neutral `1.0` entries to the
existing gammas, so after construction `bn_gammas = [5, 1]` and it is not
true that every gamma equals `1.0`. -/
theorem build_beta_default_keeps_gammas :
    (ConvBlock.build [] [] [5] [] [3] [4]).bn_gammas = [5, 1] ∧
    ¬ ∀ q ∈ (ConvBlock.build [] [] [5] [] [3] [4]).bn_gammas, q = 1 := by
  decide

theorem build_legacy_beta_gamma_defaults_example :
    (ConvBlock.build [] [] [] [] [3] [4]).bn_betas =
      List.replicate ([3] : List ℚ).length 0 ∧
    (ConvBlock.build [] [] [] [] [3] [4]).bn_gammas =
      List.replicate ([3] : List ℚ).length 1 :=
  (build_legacy_beta_gamma_defaults [] [] [] [] [3] [4]).1 rfl rfl

/-- Claim C5: if `biases` is empty on input, after construction it is
`replicate bn_means.length 0` (so its length matches `bn_means` and every
entry is `0.0`); if it was non-empty it is left unchanged. -/
theorem build_bias_default (w bi g be m sd : List ℚ) :
    (bi = [] →
      (ConvBlock.build w bi g be m sd).biases = List.replicate m.length 0) ∧
    (bi ≠ [] → (ConvBlock.build w bi g be m sd).biases = bi) := by
  constructor
  · rintro rfl
    simp [ConvBlock.build]
  · intro hbi
    have h : ¬ bi.length = 0 := by simpa [List.length_eq_zero] using hbi
    simp [ConvBlock.build, h]

theorem build_bias_default_example :
    (ConvBlock.build [] [] [] [] [3] [4]).biases =
      List.replicate ([3] : List ℚ).length 0 :=
  (build_bias_default [] [] [] [] [3] [4]).1 rfl

/-- Claim C6 (corrected): the five-way length invariant holds after
construction provided the serialized input already satisfies the coherence
the constructor silently assumes — `bn_stddivs` matches `bn_means`,
`bn_betas` and `bn_gammas` are either both empty (legacy format) or both of
the length of `bn_means`, and `biases` is empty or of the length of
`bn_means`. The constructor itself validates none of this, and the invariant
fails on incoherent input, as the counterexample shows. -/
theorem build_length_invariant (w bi g be m sd : List ℚ)
    (hsd : sd.length = m.length)
    (hbg : (be = [] ∧ g = []) ∨ (be.length = m.length ∧ g.length = m.length))
    (hbi : bi = [] ∨ bi.length = m.length) :
    (ConvBlock.build w bi g be m sd).biases.length = m.length ∧
    (ConvBlock.build w bi g be m sd).bn_gammas.length = m.length ∧
    (ConvBlock.build w bi g be m sd).bn_betas.length = m.length ∧
    (ConvBlock.build w bi g be m sd).bn_means.length = m.length ∧
    (ConvBlock.build w bi g be m sd).bn_stddivs.length = m.length := by
  refine ⟨?_, ?_, ?_, rfl, by simpa [ConvBlock.build] using hsd⟩
  · rw [build_biases_length]
    rcases hbi with rfl | h
    · simp
    · split_ifs with h0
      · omega
      · exact h
  · rw [build_gammas_length]
    rcases hbg with ⟨rfl, rfl⟩ | ⟨hbe, hg⟩
    · simp
    · split_ifs with h0 <;> omega
  · rw [build_betas_length]
    rcases hbg with ⟨rfl, rfl⟩ | ⟨hbe, hg⟩
    · simp
    · split_ifs with h0 <;> omega

/-- Claim C6 fails on incoherent serialized input: with `bn_means = [2]` and
everything else empty, the constructor back-fills `biases`, `bn_betas` and
`bn_gammas` to length 1 but leaves `bn_stddivs` empty, so the invariant
`len(biases) == len(bn_stddivs)` does not hold after construction. -/
theorem build_length_invariant_fails :
    (ConvBlock.build [] [] [] [] [2] []).biases.length ≠
      (ConvBlock.build [] [] [] [] [2] []).bn_stddivs.length := by
  decide

theorem build_length_invariant_example :
    (ConvBlock.build [] [] [] [] [2] [5]).biases.length = ([2] : List ℚ).length ∧
    (ConvBlock.build [] [] [] [] [2] [5]).bn_gammas.length = ([2] : List ℚ).length ∧
    (ConvBlock.build [] [] [] [] [2] [5]).bn_betas.length = ([2] : List ℚ).length ∧
    (ConvBlock.build [] [] [] [] [2] [5]).bn_means.length = ([2] : List ℚ).length ∧
    (ConvBlock.build [] [] [] [] [2] [5]).bn_stddivs.length = ([2] : List ℚ).length :=
  build_length_invariant [] [] [] [] [2] [5] rfl (Or.inl ⟨rfl, rfl⟩) (Or.inl rfl)

/-- Claim C8: `GetInvertedStddev` returns, for each channel `i`,
`1 / sqrt(stddev_i + 1e-5)` (the square root abstracted as `s`), and the call
leaves the block — in particular its `bn_stddivs` vector — exactly as it was
before the call. -/
theorem getInvertedStddev_spec (s : ℚ → ℚ) (b : ConvBlock) (i : ℕ)
    (h : i < b.bn_stddivs.length) :
    (b.GetInvertedStddev s).1.getD i 0 = 1 / s (b.bn_stddivs.getD i 0 + kEpsilon) ∧
    (b.GetInvertedStddev s).2 = b := by
  refine ⟨?_, rfl⟩
  show (InvertVector s b.bn_stddivs).getD i 0 = _
  have hl : i < (InvertVector s b.bn_stddivs).length := by
    simpa [InvertVector] using h
  rw [List.getD_eq_getElem _ _ hl, List.getD_eq_getElem _ _ h]
  simp [InvertVector]

theorem getInvertedStddev_spec_example :
    (cbSample.GetInvertedStddev sqrtW).1.getD 0 0 =
      1 / sqrtW (cbSample.bn_stddivs.getD 0 0 + kEpsilon) ∧
    (cbSample.GetInvertedStddev sqrtW).2 = cbSample :=
  getInvertedStddev_spec sqrtW cbSample 0 (by decide)

/-- Claim C9: `GetOffsetMeans` returns, for each channel `i`,
`mean_i - bias_i`, and the call leaves the block — in particular its
`bn_means` and `biases` vectors — exactly as it was before the call. -/
theorem getOffsetMeans_spec (b : ConvBlock) (i : ℕ)
    (h1 : i < b.bn_means.length) (h2 : i < b.biases.length) :
    b.GetOffsetMeans.1.getD i 0 = b.bn_means.getD i 0 - b.biases.getD i 0 ∧
    b.GetOffsetMeans.2 = b := by
  refine ⟨?_, rfl⟩
  show (OffsetVector b.bn_means b.biases).getD i 0 = _
  have hl : i < (OffsetVector b.bn_means b.biases).length := by
    simpa [OffsetVector] using h1
  rw [List.getD_eq_getElem _ _ hl, List.getD_eq_getElem _ _ h1]
  simp [OffsetVector]

theorem getOffsetMeans_spec_example :
    cbSample.GetOffsetMeans.1.getD 0 0 =
      cbSample.bn_means.getD 0 0 - cbSample.biases.getD 0 0 ∧
    cbSample.GetOffsetMeans.2 = cbSample :=
  getOffsetMeans_spec cbSample 0 (by decide) (by decide)

/-- Claim C10: `FoldBN` computes `inputs` with no guard whatsoever. When the
five per-channel vectors share a length `n > 0` and `filterSize > 0`, every
vector access in the body is in bounds and the division has a nonzero
divisor, even when the quotient truncates; when `n = 0` or `filterSize = 0`,
the `size_t` division `weights.size() / (outputs * spatialSize)` has divisor
zero, i.e. it divides by zero. -/
theorem foldBN_access_safety (fs n : ℕ) (b : ConvBlock)
    (hbi : b.biases.length = n) (hg : b.bn_gammas.length = n)
    (hbe : b.bn_betas.length = n) (hm : b.bn_means.length = n)
    (hsd : b.bn_stddivs.length = n) :
    (0 < n → 0 < fs → FoldBNSafe fs b) ∧
    (n = 0 ∨ fs = 0 → b.biases.length * (fs * fs) = 0) := by
  constructor
  · intro hn hfs
    refine ⟨?_, ?_, ?_, ?_⟩
    · intro i hi
      rw [hsd] at hi
      exact ⟨by rw [hg]; omega, by rw [hm]; omega, by rw [hbi]; omega⟩
    · rw [hbi]
      exact Nat.mul_ne_zero (by omega) (Nat.mul_ne_zero (by omega) (by omega))
    · intro o ho c hc i hi
      rw [hbi] at ho hc ⊢
      have hj := idx_lt o c i n (b.weights.length / (n * (fs * fs))) (fs * fs) ho hc hi
      have hle : n * (b.weights.length / (n * (fs * fs))) * (fs * fs) ≤
          b.weights.length := by
        have h0 : b.weights.length / (n * (fs * fs)) * (n * (fs * fs)) ≤
            b.weights.length := Nat.div_mul_le_self _ _
        have h1 : n * (b.weights.length / (n * (fs * fs))) * (fs * fs) =
            b.weights.length / (n * (fs * fs)) * (n * (fs * fs)) := by ring
        omega
      omega
    · intro o ho
      rw [hbi] at ho
      exact ⟨by rw [hg]; omega, by rw [hm]; omega, by rw [hbe]; omega⟩
  · intro h
    rcases h with h | h
    · rw [hbi, h]
      simp
    · rw [h]
      simp

theorem foldBN_access_safety_example : FoldBNSafe 1 cbSample :=
  (foldBN_access_safety 1 1 cbSample rfl rfl rfl rfl rfl).1 (by decide) (by decide)

/-- Claim C2 (corrected): `FoldBN` contains no divisibility validation and no
failure path. `inputs` is always computed by the truncating `size_t` division
`weights.size() / (outputs * spatialSize)`; the batch-norm statistics are
mutated regardless of divisibility (`bn_stddivs` becomes all ones), and the
weights at or beyond `outputs * inputs * spatialSize` — the remainder the
truncation drops — are silently left unscaled. -/
theorem foldBN_no_divisibility_guard (s : ℚ → ℚ) (fs : ℕ) (b : ConvBlock) :
    (b.FoldBN s fs).bn_stddivs = List.replicate b.bn_stddivs.length 1 ∧
    (∀ j, j < b.weights.length →
      b.biases.length * (b.weights.length / (b.biases.length * (fs * fs))) *
          (fs * fs) ≤ j →
      (b.FoldBN s fs).weights.getD j 0 = b.weights.getD j 0) := by
  constructor
  · rw [FoldBN_bn_stddivs, map_one_eq_replicate]
  · intro j h1 h2
    rw [FoldBN_weights]
    exact scaleWeights_getD_untouched _ _ _ _ _ j h1 h2

theorem scaleWeights_untouched_all (w g1 : List ℚ) (outputs inputsN spatialSize : ℕ)
    (h : outputs * inputsN * spatialSize = 0) :
    scaleWeights w g1 outputs inputsN spatialSize = w := by
  have h0 : ∀ j : Fin w.length, ¬ ((j : ℕ) < outputs * inputsN * spatialSize) := by
    intro j
    omega
  simp only [scaleWeights, h0, if_neg, if_false]
  exact List.ofFn_get w

/-- Claim C2 fails on the code: with 10 weights, 3 output channels and
`filterSize = 2` (so `3 * 4` does not divide 10), `FoldBN` fails with nothing
and does not leave the block unmutated: `bn_stddivs` is rewritten from
`[3, 3, 3]` to `[1, 1, 1]`, while `inputs` silently truncates to `0`, so not
a single weight is scaled. -/
theorem foldBN_mutates_on_nondivisible :
    (ConvBlock.FoldBN sqrtW 2 cbTen).bn_stddivs = [1, 1, 1] ∧
    cbTen.bn_stddivs = [3, 3, 3] ∧
    (ConvBlock.FoldBN sqrtW 2 cbTen).weights = cbTen.weights := by
  refine ⟨?_, rfl, ?_⟩
  · rw [FoldBN_bn_stddivs]
    rfl
  · rw [FoldBN_weights]
    apply scaleWeights_untouched_all
    decide

theorem foldBN_no_divisibility_guard_example :
    (ConvBlock.FoldBN sqrtW 2 cbTen).bn_stddivs =
      List.replicate cbTen.bn_stddivs.length 1 ∧
    (ConvBlock.FoldBN sqrtW 2 cbTen).weights.getD 5 0 =
      cbTen.weights.getD 5 0 :=
  ⟨(foldBN_no_divisibility_guard sqrtW 2 cbTen).1,
   (foldBN_no_divisibility_guard sqrtW 2 cbTen).2 5 (by decide) (by decide)⟩

/-- Claim C7 fails on the code: `FoldBN` does not reset `bn_gammas` to one, so
a second fold multiplies the convolution weights by the folded gammas again.
On `cbRefold` (folded gamma `2/3`, `sqrtW (1 + kEpsilon) = 1`), the single
weight is `2/3` after one fold and `4/9` after two. -/
theorem refold_not_noop :
    (ConvBlock.FoldBN sqrtW 1 (ConvBlock.FoldBN sqrtW 1 cbRefold)).weights.getD 0 0 ≠
      (ConvBlock.FoldBN sqrtW 1 cbRefold).weights.getD 0 0 := by
  have harg : cbRefold.bn_stddivs.getD 0 0 + kEpsilon = 9 := by
    show (899999 / 100000 : ℚ) + 1 / 100000 = 9
    norm_num
  have h9 : sqrtW 9 = 3 := by
    simp [sqrtW]
  have hg1 : (foldGammas sqrtW cbRefold.bn_gammas cbRefold.bn_stddivs).getD 0 0 = 2 / 3 := by
    rw [foldGammas_getD sqrtW _ _ 0 (by decide) (by decide), harg, h9]
    show (2 : ℚ) * (1 / 3) = 2 / 3
    norm_num
  have hw1 : (ConvBlock.FoldBN sqrtW 1 cbRefold).weights.getD 0 0 = 2 / 3 := by
    rw [FoldBN_weights]
    rw [scaleWeights_getD _ _ _ _ _ 0 (by decide) (by decide)]
    simp only [Nat.zero_div]
    rw [hg1]
    show (1 : ℚ) * (2 / 3) = 2 / 3
    norm_num
  have hb1g : (ConvBlock.FoldBN sqrtW 1 cbRefold).bn_gammas.getD 0 0 = 2 / 3 := by
    rw [FoldBN_bn_gammas]
    exact hg1
  have hb1sd : (ConvBlock.FoldBN sqrtW 1 cbRefold).bn_stddivs.getD 0 0 = 1 := by
    rw [FoldBN_bn_stddivs]
    rfl
  have harg1 : (ConvBlock.FoldBN sqrtW 1 cbRefold).bn_stddivs.getD 0 0 + kEpsilon =
      100001 / 100000 := by
    rw [hb1sd]
    show (1 : ℚ) + 1 / 100000 = 100001 / 100000
    norm_num
  have hne9 : sqrtW (100001 / 100000) = 1 := by
    rw [sqrtW.eq_1, if_neg]
    norm_num
  have hg2 : (foldGammas sqrtW (ConvBlock.FoldBN sqrtW 1 cbRefold).bn_gammas
      (ConvBlock.FoldBN sqrtW 1 cbRefold).bn_stddivs).getD 0 0 = 2 / 3 := by
    rw [foldGammas_getD sqrtW _ _ 0
      (by rw [FoldBN_bn_gammas, foldGammas_length]; decide)
      (by rw [FoldBN_bn_stddivs, List.length_map]; decide)]
    rw [harg1, hne9, hb1g]
    norm_num
  have hw2 : (ConvBlock.FoldBN sqrtW 1 (ConvBlock.FoldBN sqrtW 1 cbRefold)).weights.getD 0 0 =
      4 / 9 := by
    rw [FoldBN_weights]
    rw [scaleWeights_getD _ _ _ _ _ 0
      (by rw [FoldBN_weights, scaleWeights_length]; decide)
      (by rw [FoldBN_biases, foldBiases_length, zeroUpTo_length,
              FoldBN_weights, scaleWeights_length]; decide)]
    simp only [Nat.zero_div]
    rw [hg2, hw1]
    norm_num
  rw [hw2, hw1]
  norm_num

/-- Claim C7 (corrected): a repeated `FoldBN` with the same `filterSize` does
leave the batch-norm statistic vectors unchanged — `bn_stddivs` (all ones),
`bn_means` and `bn_betas` (all zeros) are fixed by a second fold — but it is
not a no-op on the whole block: `bn_gammas` is not reset to one by folding,
so a second fold scales the weights and rewrites the biases by the folded
gammas again, as the counterexample shows. -/
theorem refold_preserves_statistics (s : ℚ → ℚ) (fs : ℕ) (b : ConvBlock) (n : ℕ)
    (hbi : b.biases.length = n) (hg : b.bn_gammas.length = n)
    (hbe : b.bn_betas.length = n) (hm : b.bn_means.length = n)
    (hsd : b.bn_stddivs.length = n) :
    ((b.FoldBN s fs).FoldBN s fs).bn_stddivs = (b.FoldBN s fs).bn_stddivs ∧
    ((b.FoldBN s fs).FoldBN s fs).bn_means = (b.FoldBN s fs).bn_means ∧
    ((b.FoldBN s fs).FoldBN s fs).bn_betas = (b.FoldBN s fs).bn_betas := by
  have hb1bi : (b.FoldBN s fs).biases.length = n := by
    rw [FoldBN_biases, foldBiases_length, zeroUpTo_length, hbi]
  have hb1m : (b.FoldBN s fs).bn_means.length = n := by
    rw [FoldBN_bn_means, zeroUpTo_length, phase1Means_length, hm]
  have hb1be : (b.FoldBN s fs).bn_betas.length = n := by
    rw [FoldBN_bn_betas, zeroUpTo_length, hbe]
  have hb1sd : (b.FoldBN s fs).bn_stddivs = List.replicate n 1 := by
    rw [FoldBN_bn_stddivs, map_one_eq_replicate, hsd]
  have hb1mval : (b.FoldBN s fs).bn_means = List.replicate n 0 := by
    rw [FoldBN_bn_means, zeroUpTo_all _ _ (by simp [phase1Means_length, hm, hbi]),
      phase1Means_length, hm]
  have hb1beval : (b.FoldBN s fs).bn_betas = List.replicate n 0 := by
    rw [FoldBN_bn_betas, zeroUpTo_all _ _ (by simp [hbe, hbi]), hbe]
  refine ⟨?_, ?_, ?_⟩
  · rw [FoldBN_bn_stddivs, hb1sd, map_one_eq_replicate, List.length_replicate]
  · rw [FoldBN_bn_means, zeroUpTo_all _ _ (by simp [phase1Means_length, hb1m, hb1bi]),
      phase1Means_length, hb1m, hb1mval]
  · rw [FoldBN_bn_betas, zeroUpTo_all _ _ (by simp [hb1be, hb1bi]), hb1be, hb1beval]

theorem refold_preserves_statistics_example :
    ((cbSample.FoldBN sqrtW 1).FoldBN sqrtW 1).bn_stddivs =
      (cbSample.FoldBN sqrtW 1).bn_stddivs ∧
    ((cbSample.FoldBN sqrtW 1).FoldBN sqrtW 1).bn_means =
      (cbSample.FoldBN sqrtW 1).bn_means ∧
    ((cbSample.FoldBN sqrtW 1).FoldBN sqrtW 1).bn_betas =
      (cbSample.FoldBN sqrtW 1).bn_betas :=
  refold_preserves_statistics sqrtW 1 cbSample 1 rfl rfl rfl rfl rfl

/-- Claim C1: folding identity. For every ConvBlock with coherent sizes
(per-channel vectors of length `n`, `n * filterSize²` dividing the weight
count), every square-root stand-in `s`, every input `x` and every output
channel `o < n`: the convolution with the post-`FoldBN` weights and biases
(no normalization pass) equals the original convolution with the original
weights and biases followed by the inference-time batch-norm transform
`(y - mean) * (1 / sqrt(stddev + 1e-5)) * gamma + beta`, exactly, over the
exact rational arithmetic of the embedding. -/
theorem foldBN_conv_identity (s : ℚ → ℚ) (fs : ℕ) (b : ConvBlock) (n : ℕ)
    (hbi : b.biases.length = n) (hg : b.bn_gammas.length = n)
    (hbe : b.bn_betas.length = n) (hm : b.bn_means.length = n)
    (hsd : b.bn_stddivs.length = n)
    (hdvd : n * (fs * fs) ∣ b.weights.length) (hfs : 0 < fs)
    (x : ℕ → ℕ → ℚ) (o : ℕ) (ho : o < n) :
    convOut (b.FoldBN s fs).weights (b.FoldBN s fs).biases
        (b.weights.length / (n * (fs * fs))) (fs * fs) x o =
      batchNorm s (b.bn_gammas.getD o 0) (b.bn_betas.getD o 0)
        (b.bn_means.getD o 0) (b.bn_stddivs.getD o 0)
        (convOut b.weights b.biases (b.weights.length / (n * (fs * fs))) (fs * fs) x o) := by
  obtain ⟨I, hIdef⟩ : ∃ I, b.weights.length / (n * (fs * fs)) = I := ⟨_, rfl⟩
  have hW : n * I * (fs * fs) = b.weights.length := by
    have h0 : n * (fs * fs) * (b.weights.length / (n * (fs * fs))) = b.weights.length :=
      Nat.mul_div_cancel' hdvd
    rw [hIdef] at h0
    calc n * I * (fs * fs) = n * (fs * fs) * I := by ring
    _ = b.weights.length := h0
  rw [hIdef]
  have hgam : (foldGammas s b.bn_gammas b.bn_stddivs).getD o 0 =
      b.bn_gammas.getD o 0 * (1 / s (b.bn_stddivs.getD o 0 + kEpsilon)) :=
    foldGammas_getD s _ _ o (by rw [hg]; exact ho) (by rw [hsd]; exact ho)
  have hbias : (b.FoldBN s fs).biases.getD o 0 =
      -(b.bn_gammas.getD o 0 * (1 / s (b.bn_stddivs.getD o 0 + kEpsilon))) *
          (b.bn_means.getD o 0 - b.biases.getD o 0) + b.bn_betas.getD o 0 := by
    rw [FoldBN_biases,
      foldBiases_getD _ _ _ _ o (by rw [zeroUpTo_length, hbi]; exact ho),
      hgam,
      phase1Means_getD _ _ _ o (by rw [hm]; exact ho) (by rw [hsd]; exact ho)]
  have hwj : ∀ c < I, ∀ p < fs * fs,
      (b.FoldBN s fs).weights.getD (o * I * (fs * fs) + c * (fs * fs) + p) 0 =
        b.weights.getD (o * I * (fs * fs) + c * (fs * fs) + p) 0 *
          (b.bn_gammas.getD o 0 * (1 / s (b.bn_stddivs.getD o 0 + kEpsilon))) := by
    intro c hc p hp
    have hj : o * I * (fs * fs) + c * (fs * fs) + p < n * I * (fs * fs) :=
      idx_lt o c p n I (fs * fs) ho hc hp
    have hjW : o * I * (fs * fs) + c * (fs * fs) + p < b.weights.length := hW ▸ hj
    rw [FoldBN_weights, hbi, hIdef]
    rw [scaleWeights_getD _ _ _ _ _ _ hjW hj]
    rw [idx_div o c p I (fs * fs) hc hp]
    rw [hgam]
  simp only [convOut, batchNorm]
  rw [hbias]
  have hsum : (∑ c ∈ Finset.range I, ∑ p ∈ Finset.range (fs * fs),
      (b.FoldBN s fs).weights.getD (o * I * (fs * fs) + c * (fs * fs) + p) 0 * x c p) =
      (∑ c ∈ Finset.range I, ∑ p ∈ Finset.range (fs * fs),
        b.weights.getD (o * I * (fs * fs) + c * (fs * fs) + p) 0 * x c p) *
        (b.bn_gammas.getD o 0 * (1 / s (b.bn_stddivs.getD o 0 + kEpsilon))) := by
    rw [Finset.sum_mul]
    apply Finset.sum_congr rfl
    intro c hc
    rw [Finset.sum_mul]
    apply Finset.sum_congr rfl
    intro p hp
    rw [hwj c (Finset.mem_range.1 hc) p (Finset.mem_range.1 hp)]
    ring
  rw [hsum]
  ring

theorem foldBN_conv_identity_example :
    convOut (cbSample.FoldBN sqrtW 1).weights (cbSample.FoldBN sqrtW 1).biases
        (cbSample.weights.length / (1 * (1 * 1))) (1 * 1) oneInput 0 =
      batchNorm sqrtW (cbSample.bn_gammas.getD 0 0) (cbSample.bn_betas.getD 0 0)
        (cbSample.bn_means.getD 0 0) (cbSample.bn_stddivs.getD 0 0)
        (convOut cbSample.weights cbSample.biases
          (cbSample.weights.length / (1 * (1 * 1))) (1 * 1) oneInput 0) :=
  foldBN_conv_identity sqrtW 1 cbSample 1 rfl rfl rfl rfl rfl (by decide) (by decide)
    oneInput 0 (by decide)
